import Mathlib

/-!
Verification of backurne (src/backurne/backurne.py) against its
natural-language specification.

Shallow embedding: times are integers (seconds since some epoch), a parsed
canonical snapshot name tag;profile;count;timestamp becomes a structure
carrying the profile string, the integer count and the parsed timestamp.
Driver calls (Ceph, Proxmox) are data sources: their results are inputs of
the embedded functions, and effects (snapshot deletions, queue puts, status
messages) are returned explicitly.
-/

namespace Backurne

/-- Seconds in one day; datetime.timedelta(days=1). -/
def daySec : Int := 86400

/-- Seconds in one hour; datetime.timedelta(hours=1). -/
def hourSec : Int := 3600

/-- A parsed canonical snapshot name tag;profile;count;timestamp.
The timestamp is already parsed to an integer instant (dateutil.parser
is outside the core). -/
structure SnapB where
  tag : String
  profile : String
  count : Int
  ts : Int
deriving DecidableEq, Repr

/-- Backup.is_expired (backurne.py lines 139-159): splits the name into
profile, count, timestamp; daily means count days, hourly means count hours,
any other profile logs a warning and returns False; when last is True the
configured extra_retention_time (in days) is added; the snapshot is expired
when the resulting instant is not after now. -/
def is_expired (now extraRetention : Int) (s : SnapB) (last : Bool) : Bool :=
  let expiration? : Option Int :=
    if s.profile = "daily" then some (s.count * daySec)
    else if s.profile = "hourly" then some (s.count * hourSec)
    else none
  match expiration? with
  | none => false
  | some expiration =>
    let expired_at := s.ts + expiration
    let expired_at := if last then expired_at + extraRetention * daySec else expired_at
    if expired_at > now then false else true

/-- Reason attached to a freshness-check failure record. -/
inductive CheckReason where
  | missing
  | noShared
  | stale (ts : Int)
deriving DecidableEq, Repr

/-- Check.check_img (backurne.py lines 37-60): a record with reason missing
when the destination image does not exist on the backup side, no-shared-snap
when no shared snapshot exists, stale(ts) when the shared snapshot is older
than now minus (1 day + 6 hours); otherwise no record. destPresent is
ceph.backup.exists(backup.dest) and lastTs the parsed timestamp of
get_last_shared_snap, none when there is no shared snapshot. -/
def check_img (now : Int) (destPresent : Bool) (lastTs : Option Int) : Option CheckReason :=
  if !destPresent then some .missing
  else
    match lastTs with
    | none => some .noShared
    | some whenTs =>
      let deadline := now - (daySec + 6 * hourSec)
      if whenTs < deadline then some (.stale whenTs) else none

/-- Backup.expire_backup (backurne.py lines 258-293), success path, acting on
the pure snapshot state of one backup image. snaps0 is the driver result
ceph.backup.snap(image) at entry (the driver returns names in sorted order,
which for canonical names is temporal order). The code pops the final
element as last, deletes every other snapshot that is expired, re-fetches,
deletes the single remaining snapshot when is_expired(last, last=True), and
deletes the image once no snapshot is left; an image with no snapshot at
entry is deleted at once. Returns the remaining snapshots and whether the
image itself was deleted. -/
def expire_backup (now extraRetention : Int) (snaps0 : List SnapB) : List SnapB × Bool :=
  match snaps0.getLast? with
  | none => ([], true)
  | some last =>
    let afterFirst :=
      snaps0.dropLast.filter (fun s => !(is_expired now extraRetention s false)) ++ [last]
    let afterSecond :=
      if afterFirst.length = 1 ∧ is_expired now extraRetention last true = true then
        []
      else afterFirst
    (afterSecond, afterSecond.isEmpty)

/-- Structural split of a character list on the semicolon, the semantics of
str.split(';'): fields in order, empty fields preserved. -/
def splitSemiAux (cs : List Char) (cur : List Char) : List (List Char) :=
  match cs with
  | [] => [cur.reverse]
  | c :: rest =>
    if c = ';' then cur.reverse :: splitSemiAux rest []
    else splitSemiAux rest (c :: cur)

/-- Lexicographic order on snapshot names by code point, the semantics of
Python str comparison: a <= b is the negation of b < a under the total
lexicographic order on the underlying character lists. -/
def strLe (a b : String) : Bool := !(decide (b.data < a.data))

/-- Profile field of a snapshot name: snap.split(';')[1] in the grouping
loop of Backup._expire_item; canonical names have four fields so index 1
is the profile. -/
def profileOf (s : String) : String :=
  String.mk ((splitSemiAux s.data []).getD 1 [])

/-- Maximum of a list of snapshot names: sorted(l).pop(), none when the
list is empty. -/
def maxStr? : List String → Option String
  | [] => none
  | s :: rest =>
    match maxStr? rest with
    | none => some s
    | some m => some (if strLe s m then m else s)

/-- Insert a snapshot into the by_profile table, keeping per-profile
insertion order; new profiles are appended at the end. -/
def addToGroup : List (String × List String) → String → String → List (String × List String)
  | [], p, s => [(p, [s])]
  | (q, l) :: rest, p, s =>
    if q = p then (q, l ++ [s]) :: rest else (q, l) :: addToGroup rest p s

/-- Grouping loop of Backup._expire_item (backurne.py lines 214-225): a live
snapshot at least the anchor is kept out; the rest are grouped by their
profile field. Comparing a name with an absent anchor is the Python 3
TypeError of snap >= None, modelled as an error. -/
def buildGroups (shared : Option String) (snaps : List String) :
    Except Unit (List (String × List String)) :=
  snaps.foldlM
    (fun gs snap =>
      match shared with
      | none => Except.error ()
      | some sh =>
        Except.ok (if strLe sh snap then gs else addToGroup gs (profileOf snap) snap))
    []

/-- Configured profile lookup: config['profiles'][p] gives KeyError when the
profile is absent (outer none); an entry carries max_on_live when the key is
set, its own KeyError defaulting to 1. -/
def lookupCfg (cfg : List (String × Option Nat)) (p : String) : Option (Option Nat) :=
  (cfg.find? (fun e => e.1 == p)).map (fun e => e.2)

/-- Deletion selection for one profile group (backurne.py lines 227-248): an
absent profile makes the whole group deletable; otherwise max_on_live
elements (default 1) are popped off the end of the group and what remains is
deleted. -/
def delsForGroup (cfg : List (String × Option Nat)) (p : String) (l : List String) :
    List String :=
  match lookupCfg cfg p with
  | none => l
  | some mOpt => l.take (l.length - mOpt.getD 1)

/-- Backup._expire_item (backurne.py lines 193-250), deletion computation:
backups = Ceph(None).backup.snap(bck.dest) and snaps = ceph.snap(rbd) are
the driver results; the anchor is the maximum of their intersection; the
result lists exactly the snapshots passed to ceph.rm_snap. -/
def expire_item (cfg : List (String × Option Nat)) (backups snaps : List String) :
    Except Unit (List String) := do
  let shared := maxStr? (snaps.filter (fun s => backups.contains s))
  let groups ← buildGroups shared snaps
  pure (groups.foldl (fun acc g => acc ++ delsForGroup cfg g.1 g.2) [])

/-- Lookup of a profile group in the by_profile table. -/
def groupGet (gs : List (String × List String)) (p : String) : List String :=
  ((gs.find? (fun g => g.1 == p)).map (fun g => g.2)).getD []

/-- One step of the grouping loop once the anchor is known to exist. -/
def groupStep (sh : String) (gs : List (String × List String)) (snap : String) :
    List (String × List String) :=
  if strLe sh snap then gs else addToGroup gs (profileOf snap) snap

/-- Live snapshots of profile p strictly older than the anchor sh, in list
order. -/
def olderOfProfile (sh p : String) (snaps : List String) : List String :=
  snaps.filter (fun s => (!(strLe sh s)) && (profileOf s == p))

/-- Messages of the status stream consumed by Real_updater. -/
inductive StatusMsg where
  | add
  | done
deriving DecidableEq, Repr

/-- A transfer job as queued by Backup._create_snap: dest, last_snap and
snap_name from bck.make_snap; the bck handle carries no data relevant
here. -/
structure Job where
  dest : String
  last_snap : Option String
  snap_name : String
deriving DecidableEq, Repr

/-- Outcome of one profile iteration inside Backup._create_snap (backurne.py
lines 166-180): the profile can be skipped (bck.check_profile false, a
done_item is emitted); otherwise make_snap returns a job (dest not None),
returns no job (dest None), or raises an exception. -/
inductive PStep where
  | skipped
  | created (j : Job)
  | noSnap
  | raises
deriving DecidableEq, Repr

/-- One disk processed by Backup._create_snap: whether the image lock was
acquired (false models filelock.Timeout) and the per-profile outcomes. -/
structure DiskRun where
  lockOk : Bool
  steps : List PStep
deriving DecidableEq, Repr

/-- Observable effects of one Backup._create_snap call: status messages
emitted in order, job batches put on the queue, and whether an exception
other than filelock.Timeout escapes the call. -/
structure DiskOut where
  status : List StatusMsg
  queued : List (List Job)
  exc : Bool
deriving DecidableEq, Repr

/-- Profile loop of Backup._create_snap carrying the todo accumulator; an
add_item precedes every profile, a done_item follows only skipped profiles,
and a raising step escapes the with-block before the final queue.put, so
nothing is queued in that case. -/
def diskLoop : List PStep → List Job → DiskOut
  | [], todo =>
    { status := [], queued := if todo.isEmpty then [] else [todo], exc := false }
  | PStep.skipped :: rest, todo =>
    let o := diskLoop rest todo
    { o with status := StatusMsg.add :: StatusMsg.done :: o.status }
  | PStep.created j :: rest, todo =>
    let o := diskLoop rest (todo ++ [j])
    { o with status := StatusMsg.add :: o.status }
  | PStep.noSnap :: rest, todo =>
    let o := diskLoop rest todo
    { o with status := StatusMsg.add :: o.status }
  | PStep.raises :: _, _ =>
    { status := [StatusMsg.add], queued := [], exc := true }

/-- Backup._create_snap (backurne.py lines 161-185) for one disk: a lock
timeout is swallowed and leaves todo empty so nothing is queued; the batch
put happens once, after the lock is released, with all of the disk's
jobs. -/
def create_snap_disk (d : DiskRun) : DiskOut :=
  if d.lockOk then diskLoop d.steps []
  else { status := [], queued := [], exc := false }

/-- Jobs produced by the profile outcomes of one disk, in order. -/
def jobsOf (steps : List PStep) : List Job :=
  steps.filterMap (fun st =>
    match st with
    | PStep.created j => some j
    | _ => none)

/-- One Proxmox unit processed by BackupProxmox.create_snap: whether
px.freeze succeeds, and the per-disk runs (profile fetching has its own
catch-all and never raises). -/
structure VMRun where
  freezeOk : Bool
  disks : List DiskRun
deriving DecidableEq, Repr

/-- Observable effects of BackupProxmox.create_snap on one unit. -/
structure VMOut where
  status : List StatusMsg
  queued : List (List Job)
  thawCalled : Bool
deriving DecidableEq, Repr

/-- Disk loop of BackupProxmox.create_snap: it stops at the first disk whose
_create_snap raises, and in that case px.thaw is never reached because the
exception jumps to the outermost log-only handler. -/
def vmDisks : List DiskRun → VMOut
  | [] => { status := [], queued := [], thawCalled := true }
  | d :: rest =>
    let o := create_snap_disk d
    if o.exc then { status := o.status, queued := o.queued, thawCalled := false }
    else
      let r := vmDisks rest
      { status := o.status ++ r.status, queued := o.queued ++ r.queued,
        thawCalled := r.thawCalled }

/-- BackupProxmox.create_snap (backurne.py lines 349-365) for one unit:
px.freeze, then _create_snap per disk, then px.thaw, all inside one try
whose handler only logs; a freeze failure or an escaping disk exception
skips px.thaw. -/
def create_snap_vm (v : VMRun) : VMOut :=
  if v.freezeOk then vmDisks v.disks
  else { status := [], queued := [], thawCalled := false }

/-- Producer.__call__ (backurne.py lines 493-508): once __work__ has
processed every cluster, the job batches already sit on the queue and one
None sentinel per live_worker is appended. -/
def producer_queue (batches : List (List Job)) (live_worker : Nat) :
    List (Option (List Job)) :=
  batches.map some ++ List.replicate live_worker none

/-- Consumer.__work__ dequeue loop (backurne.py lines 534-539): the portion
of the stream one consumer takes ends at, and includes, its first
sentinel. -/
def consumer_consumed : List (Option (List Job)) → List (Option (List Job))
  | [] => []
  | none :: _ => [none]
  | some b :: rest => some b :: consumer_consumed rest

/-- Status messages the Consumer emits for its consumed stream (backurne.py
lines 534-552): exactly one done_item per dequeued batch, whatever the
number of jobs inside, and none for the sentinel. -/
def consumer_status : List (Option (List Job)) → List StatusMsg
  | [] => []
  | none :: _ => []
  | some _ :: rest => StatusMsg.done :: consumer_status rest

/-- Real_updater.__work__ accounting (backurne.py lines 440-455): add_item
increments total and todo, done_item decrements todo; todo is the pending
count total - done displayed by the reporter. -/
def updater_todo (msgs : List StatusMsg) : Int :=
  msgs.foldl
    (fun t m =>
      match m with
      | StatusMsg.add => t + 1
      | StatusMsg.done => t - 1)
    0

/-- A row of the results table (date, cluster, disk, msg); date is the epoch
at insertion, strftime('%s','now'). -/
structure ResRow where
  date : Int
  cluster : String
  disk : String
  msg : String
deriving DecidableEq, Repr

/-- A fresh failure record produced by a verification pass. -/
structure CheckRec where
  cluster : String
  image : String
  msg : String
deriving DecidableEq, Repr

/-- Matching test of update_check_results: a stored row and a fresh record
refer to the same problem when cluster and image coincide. -/
def rowMatches (i : ResRow) (j : CheckRec) : Bool :=
  i.cluster == j.cluster && i.disk == j.image

/-- delete from results where cluster = ? and disk = ?. -/
def delKey (store : List ResRow) (c d : String) : List ResRow :=
  store.filter (fun r => !(r.cluster == c && r.disk == d))

/-- update_check_results (backurne.py lines 577-603): failed_db is the
snapshot of the store taken up front; every snapshot row with no fresh match
is deleted by key; then every fresh record with no snapshot match is
inserted with the current epoch. -/
def update_check_results (now : Int) (store : List ResRow) (fresh : List CheckRec) :
    List ResRow :=
  let failed_db := store
  let st1 := failed_db.foldl
    (fun st i =>
      if fresh.any (fun j => rowMatches i j) then st
      else delKey st i.cluster i.disk)
    store
  fresh.foldl
    (fun st c =>
      if failed_db.any (fun j => rowMatches j c) then st
      else st ++ [{ date := now, cluster := c.cluster, disk := c.image, msg := c.msg }])
    st1

end Backurne

namespace Backurne

/-- C5: is_expired is true exactly when the parsed timestamp plus the
profile duration (count days for daily, count hours for hourly), extended by
extra_retention_time days when treat_as_last holds, is at most now; for any
other profile it is false (never a deletion). -/
theorem is_expired_correct (now extra : Int) (s : SnapB) (last : Bool) :
    is_expired now extra s last = true ↔
      ((s.profile = "daily" ∧
          s.ts + s.count * 86400 + (if last then extra * 86400 else 0) ≤ now) ∨
       (s.profile = "hourly" ∧
          s.ts + s.count * 3600 + (if last then extra * 86400 else 0) ≤ now)) := by
  by_cases hd : s.profile = "daily"
  · have hne : s.profile ≠ "hourly" := by simp [hd]
    cases last <;> simp [is_expired, daySec, hd, hne] <;> omega
  · by_cases hh : s.profile = "hourly"
    · cases last <;> simp [is_expired, daySec, hourSec, hd, hh] <;> omega
    · simp [is_expired, hd, hh]

/-- C6: check_img produces a record exactly when the destination is missing,
or no shared snapshot exists, or the shared timestamp is older than
now - 30h = now - 108000 seconds; the record carries the matching reason, and
an image whose shared timestamp is at least now - 108000 yields no record. -/
theorem check_img_correct (now : Int) (destPresent : Bool) (lastTs : Option Int) :
    ((check_img now destPresent lastTs).isSome = true ↔
      destPresent = false ∨ lastTs = none ∨ ∃ w, lastTs = some w ∧ w < now - 108000)
    ∧ (check_img now destPresent lastTs = some .missing ↔ destPresent = false)
    ∧ (check_img now destPresent lastTs = some .noShared ↔
        destPresent = true ∧ lastTs = none)
    ∧ (∀ w, check_img now destPresent lastTs = some (.stale w) ↔
        destPresent = true ∧ lastTs = some w ∧ w < now - 108000)
    ∧ (check_img now destPresent lastTs = none ↔
        destPresent = true ∧ ∃ w, lastTs = some w ∧ now - 108000 ≤ w) := by
  cases destPresent
  · simp [check_img]
  · cases lastTs with
    | none => simp [check_img]
    | some w =>
      by_cases hw : w < now - 108000
      · refine ⟨?_, ?_, ?_, ?_, ?_⟩ <;>
          simp [check_img, daySec, hourSec] <;> omega
      · refine ⟨?_, ?_, ?_, ?_, ?_⟩ <;>
          simp [check_img, daySec, hourSec] <;> omega

theorem groupGet_nil (p : String) : groupGet [] p = [] := rfl

theorem groupGet_cons (k : String) (l : List String) (rest : List (String × List String))
    (p : String) :
    groupGet ((k, l) :: rest) p = if k = p then l else groupGet rest p := by
  by_cases h : k = p
  · simp [groupGet, List.find?_cons_of_pos, h]
  · have hf : (((k, l) :: rest).find? (fun g => g.1 == p)) = rest.find? (fun g => g.1 == p) :=
      List.find?_cons_of_neg _ (by simp [h])
    simp [groupGet, hf, h]

theorem groupGet_addToGroup (gs : List (String × List String)) (p q s : String) :
    groupGet (addToGroup gs q s) p =
      if q = p then groupGet gs p ++ [s] else groupGet gs p := by
  induction gs with
  | nil =>
    by_cases h : q = p <;> simp [addToGroup, groupGet_cons, groupGet_nil, h]
  | cons g rest ih =>
    obtain ⟨k, l⟩ := g
    by_cases hk : k = q
    · subst hk
      have hrw : addToGroup ((k, l) :: rest) k s = (k, l ++ [s]) :: rest := by
        simp [addToGroup]
      rw [hrw, groupGet_cons]
      by_cases hp : k = p <;> simp [groupGet_cons, hp]
    · have hrw : addToGroup ((k, l) :: rest) q s = (k, l) :: addToGroup rest q s := by
        simp [addToGroup, hk]
      rw [hrw, groupGet_cons]
      by_cases hkp : k = p
      · have hqp : q ≠ p := fun he => hk (hkp.trans he.symm)
        simp [groupGet_cons, hkp, hqp]
      · simp [groupGet_cons, hkp, ih]

theorem keys_addToGroup (gs : List (String × List String)) (q s : String) :
    (addToGroup gs q s).map Prod.fst =
      if q ∈ gs.map Prod.fst then gs.map Prod.fst else gs.map Prod.fst ++ [q] := by
  induction gs with
  | nil => simp [addToGroup]
  | cons g rest ih =>
    obtain ⟨k, l⟩ := g
    by_cases hk : k = q
    · simp [addToGroup, hk]
    · have hqk : q ≠ k := fun he => hk he.symm
      by_cases hq : q ∈ rest.map Prod.fst <;>
        simp [addToGroup, hk, ih, hq, hqk]

theorem keysNodup_addToGroup {gs : List (String × List String)}
    (h : (gs.map Prod.fst).Nodup) (q s : String) :
    ((addToGroup gs q s).map Prod.fst).Nodup := by
  rw [keys_addToGroup]
  by_cases hq : q ∈ gs.map Prod.fst
  · simpa [hq] using h
  · simp only [hq, if_false]
    refine List.nodup_append.mpr ⟨h, List.nodup_singleton q, ?_⟩
    intro a ha hb
    rw [List.mem_singleton] at hb
    exact hq (hb ▸ ha)

theorem groupGet_of_mem {gs : List (String × List String)}
    (hk : (gs.map Prod.fst).Nodup) {g : String × List String} (hg : g ∈ gs) :
    groupGet gs g.1 = g.2 := by
  induction gs with
  | nil => cases hg
  | cons hd rest ih =>
    obtain ⟨k, l⟩ := hd
    rcases List.mem_cons.mp hg with h | h
    · subst h
      simp [groupGet_cons]
    · have hk2 : (k :: rest.map Prod.fst).Nodup := by
        rw [List.map_cons] at hk
        exact hk
      have hmem : g.1 ∈ rest.map Prod.fst := List.mem_map_of_mem Prod.fst h
      have hkk : k ≠ g.1 := by
        intro he
        exact (List.nodup_cons.mp hk2).1 (he ▸ hmem)
      rw [groupGet_cons, if_neg hkk]
      exact ih (List.nodup_cons.mp hk2).2 h

theorem buildGroups_some (sh : String) (snaps : List String) :
    buildGroups (some sh) snaps = Except.ok (snaps.foldl (groupStep sh) []) := by
  show List.foldlM (fun gs snap => Except.ok (groupStep sh gs snap)) [] snaps = _
  generalize ([] : List (String × List String)) = gs
  induction snaps generalizing gs with
  | nil => rfl
  | cons snap rest ih =>
    simpa [List.foldlM_cons] using ih (groupStep sh gs snap)

theorem buildGroups_none_cons (snap : String) (rest : List String) :
    buildGroups none (snap :: rest) = Except.error () := rfl

theorem groupGet_foldl (sh : String) (snaps : List String) (p : String) :
    ∀ gs, groupGet (snaps.foldl (groupStep sh) gs) p =
      groupGet gs p ++ olderOfProfile sh p snaps := by
  induction snaps with
  | nil => intro gs; simp [olderOfProfile]
  | cons snap rest ih =>
    intro gs
    by_cases hle : strLe sh snap = true
    · have hpred : ((!(strLe sh snap)) && (profileOf snap == p)) = false := by
        simp [hle]
      have hfil : olderOfProfile sh p (snap :: rest) = olderOfProfile sh p rest := by
        rw [olderOfProfile, olderOfProfile, List.filter_cons, hpred]
        simp
      simp only [List.foldl_cons, groupStep, hle, if_true]
      rw [ih gs, hfil]
    · have hle2 : strLe sh snap = false := by
        cases h : strLe sh snap
        · rfl
        · exact absurd h hle
      by_cases hp : profileOf snap = p
      · have hpred : ((!(strLe sh snap)) && (profileOf snap == p)) = true := by
          simp [hle2, hp]
        have hfil : olderOfProfile sh p (snap :: rest) = snap :: olderOfProfile sh p rest := by
          rw [olderOfProfile, olderOfProfile, List.filter_cons, hpred]
          simp
        simp only [List.foldl_cons, groupStep, hle2]
        rw [if_neg (by simp)]
        rw [ih (addToGroup gs (profileOf snap) snap), groupGet_addToGroup,
          if_pos hp, hfil]
        simp
      · have hpred : ((!(strLe sh snap)) && (profileOf snap == p)) = false := by
          simp [hp]
        have hfil : olderOfProfile sh p (snap :: rest) = olderOfProfile sh p rest := by
          rw [olderOfProfile, olderOfProfile, List.filter_cons, hpred]
          simp
        simp only [List.foldl_cons, groupStep, hle2]
        rw [if_neg (by simp)]
        rw [ih (addToGroup gs (profileOf snap) snap), groupGet_addToGroup,
          if_neg hp, hfil]

theorem keysNodup_foldl (sh : String) (snaps : List String) :
    ∀ gs, ((gs.map Prod.fst).Nodup) →
      (((snaps.foldl (groupStep sh) gs).map Prod.fst)).Nodup := by
  induction snaps with
  | nil => intro gs h; simpa using h
  | cons snap rest ih =>
    intro gs h
    by_cases hle : strLe sh snap = true
    · simpa [groupStep, hle] using ih gs h
    · have hle2 : strLe sh snap = false := by
        cases hx : strLe sh snap
        · rfl
        · exact absurd hx hle
      simpa [groupStep, hle2] using
        ih (addToGroup gs (profileOf snap) snap) (keysNodup_addToGroup h _ _)

theorem foldl_append_flatten (f : String × List String → List String) :
    ∀ (gs : List (String × List String)) (acc : List String),
      gs.foldl (fun acc g => acc ++ f g) acc = acc ++ (gs.map f).flatten := by
  intro gs
  induction gs with
  | nil => intro acc; simp
  | cons g rest ih => intro acc; simp [ih]

theorem mem_delsForGroup {cfg : List (String × Option Nat)} {p : String}
    {l : List String} {x : String} (h : x ∈ delsForGroup cfg p l) : x ∈ l := by
  unfold delsForGroup at h
  rcases hc : lookupCfg cfg p with - | mOpt
  · rwa [hc] at h
  · rw [hc] at h
    exact List.take_subset _ _ h

theorem mem_olderOfProfile_profile {sh p x : String} {snaps : List String}
    (h : x ∈ olderOfProfile sh p snaps) : profileOf x = p := by
  have := (List.mem_filter.mp h).2
  have hb : (profileOf x == p) = true := by
    cases hpb : (profileOf x == p) <;> simp [hpb] at this ⊢
  exact eq_of_beq hb

theorem contains_eq_true_iff {l : List String} {a : String} :
    l.contains a = true ↔ a ∈ l := by
  simp [List.contains, List.elem_iff]

theorem expire_item_ok_of_anchor (cfg : List (String × Option Nat))
    (backups snaps : List String) (sh : String)
    (hanch : maxStr? (snaps.filter (fun s => backups.contains s)) = some sh) :
    expire_item cfg backups snaps =
      Except.ok ((((snaps.foldl (groupStep sh) [])).map
          (fun g => delsForGroup cfg g.1 g.2)).flatten) := by
  rw [expire_item]
  simp only [hanch, buildGroups_some, foldl_append_flatten]
  rfl

theorem mem_dels_iff (cfg : List (String × Option Nat)) (backups snaps dels : List String)
    (sh x : String)
    (hanch : maxStr? (snaps.filter (fun s => backups.contains s)) = some sh)
    (hok : expire_item cfg backups snaps = Except.ok dels) :
    (x ∈ dels ↔ ∃ p, x ∈ delsForGroup cfg p (olderOfProfile sh p snaps)) := by
  rw [expire_item_ok_of_anchor cfg backups snaps sh hanch] at hok
  have hdels :
      dels = (((snaps.foldl (groupStep sh) [])).map
          (fun g => delsForGroup cfg g.1 g.2)).flatten := by
    injection hok with h
    exact h.symm
  subst hdels
  have hkeys : (((snaps.foldl (groupStep sh) []).map Prod.fst)).Nodup :=
    keysNodup_foldl sh snaps [] (by simp)
  constructor
  · intro hx
    rcases List.mem_flatten.mp hx with ⟨l, hl, hxl⟩
    rcases List.mem_map.mp hl with ⟨g, hg, rfl⟩
    have hgg : g.2 = olderOfProfile sh g.1 snaps := by
      have := groupGet_of_mem hkeys hg
      rw [groupGet_foldl sh snaps g.1 []] at this
      simpa [groupGet_nil] using this.symm
    exact ⟨g.1, by rwa [hgg] at hxl⟩
  · rintro ⟨p, hx⟩
    have hne : olderOfProfile sh p snaps ≠ [] := by
      intro h
      rw [h] at hx
      cases mem_delsForGroup hx
    have hget : groupGet (snaps.foldl (groupStep sh) []) p = olderOfProfile sh p snaps := by
      rw [groupGet_foldl sh snaps p []]
      simp [groupGet_nil]
    rcases hf : (snaps.foldl (groupStep sh) []).find? (fun g => g.1 == p) with - | e
    · rw [groupGet, hf] at hget
      exact absurd hget.symm hne
    · have hmem : e ∈ snaps.foldl (groupStep sh) [] := List.mem_of_find?_eq_some hf
      have hbeq := List.find?_some hf
      have hep : e.1 = p := eq_of_beq hbeq
      have he2 : e.2 = olderOfProfile sh p snaps := by
        rw [groupGet, hf] at hget
        simpa using hget
      refine List.mem_flatten.mpr ⟨delsForGroup cfg e.1 e.2, ?_, ?_⟩
      · exact List.mem_map_of_mem _ hmem
      · rw [hep, he2]
        exact hx

theorem mem_dels_iff_profile (cfg : List (String × Option Nat))
    (backups snaps dels : List String) (sh x p : String)
    (hanch : maxStr? (snaps.filter (fun s => backups.contains s)) = some sh)
    (hok : expire_item cfg backups snaps = Except.ok dels)
    (hprof : profileOf x = p) :
    (x ∈ dels ↔ x ∈ delsForGroup cfg p (olderOfProfile sh p snaps)) := by
  rw [mem_dels_iff cfg backups snaps dels sh x hanch hok]
  constructor
  · rintro ⟨q, hq⟩
    have hxq : x ∈ olderOfProfile sh q snaps := mem_delsForGroup hq
    have : q = p := (mem_olderOfProfile_profile hxq) ▸ hprof
    exact this ▸ hq
  · intro h
    exact ⟨p, h⟩

theorem filter_not_contains_of_subset {l t : List String} (hs : ∀ a ∈ l, a ∈ t) :
    l.filter (fun x => !(t.contains x)) = [] := by
  rw [List.filter_eq_nil_iff]
  intro a ha
  simp only [Bool.not_eq_true', Bool.not_not]
  simp
  exact hs a ha

theorem filter_not_contains_of_disjoint {l t : List String} (hd : ∀ a ∈ l, a ∉ t) :
    l.filter (fun x => !(t.contains x)) = l := by
  rw [List.filter_eq_self]
  intro a ha
  simp
  exact hd a ha

theorem filter_not_take_contains {l : List String} (hnd : l.Nodup) (k : Nat) :
    l.filter (fun x => !((l.take k).contains x)) = l.drop k := by
  have hstep :
      l.filter (fun x => !((l.take k).contains x)) =
        (l.take k ++ l.drop k).filter (fun x => !((l.take k).contains x)) := by
    rw [List.take_append_drop]
  rw [hstep, List.filter_append,
    filter_not_contains_of_subset (fun a ha => ha),
    filter_not_contains_of_disjoint
      (fun a ha hat => (List.disjoint_take_drop hnd le_rfl) hat ha),
    List.nil_append]

/-- C2: live-side expiration with an empty live-backup intersection. The
claim says the per-image computation proceeds (no anchor exclusion, normal
grouping and retention) and cannot fail for this input shape; in the code
the first loop iteration evaluates snap >= None, a Python 3 TypeError, so
the computation errors out and the image is skipped by the caller's
catch-all handler. Evaluated at a concrete failing input. -/
theorem expire_item_no_anchor_error :
    expire_item [("daily", some 1)] [] ["backurne;daily;7;2024-01-01T00:00:00"] =
      Except.error () := rfl

/-- C4: live-side retention. Under an existing anchor (non-empty
intersection), driver lists sorted and duplicate-free: for a profile present
in the configuration with retention m = max_on_live (default 1), at most m
snapshots of that profile strictly older than the anchor survive the
deletion list, and every deleted one precedes every retained one (the
retained are the most recent); for a profile absent from the configuration,
every snapshot of that profile strictly older than the anchor is deleted. -/
theorem expire_item_retention (cfg : List (String × Option Nat))
    (backups snaps dels : List String) (sh p : String)
    (hanch : maxStr? (snaps.filter (fun s => backups.contains s)) = some sh)
    (hok : expire_item cfg backups snaps = Except.ok dels)
    (hsorted : snaps.Pairwise (fun a b => strLe a b = true)) (hnd : snaps.Nodup) :
    (∀ mOpt, lookupCfg cfg p = some mOpt →
      ((((olderOfProfile sh p snaps).filter (fun s => !(dels.contains s))).length
          ≤ mOpt.getD 1)
       ∧ ∀ a ∈ (olderOfProfile sh p snaps).filter (fun s => dels.contains s),
         ∀ b ∈ (olderOfProfile sh p snaps).filter (fun s => !(dels.contains s)),
           strLe a b = true))
    ∧ (lookupCfg cfg p = none → ∀ s ∈ olderOfProfile sh p snaps, s ∈ dels) := by
  have hLnd : (olderOfProfile sh p snaps).Nodup := List.Nodup.filter _ hnd
  have hLsort : (olderOfProfile sh p snaps).Pairwise (fun a b => strLe a b = true) :=
    List.Pairwise.filter _ hsorted
  have key : ∀ x ∈ olderOfProfile sh p snaps,
      (x ∈ dels ↔ x ∈ delsForGroup cfg p (olderOfProfile sh p snaps)) := by
    intro x hx
    exact mem_dels_iff_profile cfg backups snaps dels sh x p hanch hok
      (mem_olderOfProfile_profile hx)
  constructor
  · intro mOpt hcfg
    have hdg : delsForGroup cfg p (olderOfProfile sh p snaps) =
        (olderOfProfile sh p snaps).take
          ((olderOfProfile sh p snaps).length - mOpt.getD 1) := by
      rw [delsForGroup, hcfg]
    have hcg : (olderOfProfile sh p snaps).filter (fun s => !(dels.contains s)) =
        (olderOfProfile sh p snaps).filter
          (fun s => !(((olderOfProfile sh p snaps).take
            ((olderOfProfile sh p snaps).length - mOpt.getD 1)).contains s)) := by
      apply List.filter_congr
      intro x hx
      have hiff : x ∈ dels ↔
          x ∈ (olderOfProfile sh p snaps).take
            ((olderOfProfile sh p snaps).length - mOpt.getD 1) := by
        rw [key x hx, hdg]
      cases hc : dels.contains x
      · have : ¬ x ∈ dels := fun hm => by
          rw [← contains_eq_true_iff (l := dels)] at hm
          rw [hc] at hm
          cases hm
        have hnt : ((olderOfProfile sh p snaps).take
            ((olderOfProfile sh p snaps).length - mOpt.getD 1)).contains x = false := by
          cases hc2 : ((olderOfProfile sh p snaps).take
              ((olderOfProfile sh p snaps).length - mOpt.getD 1)).contains x
          · rfl
          · exact absurd (hiff.mpr (contains_eq_true_iff.mp hc2)) this
        rw [hnt]
      · have hmem : x ∈ dels := contains_eq_true_iff.mp hc
        have hnt : ((olderOfProfile sh p snaps).take
            ((olderOfProfile sh p snaps).length - mOpt.getD 1)).contains x = true :=
          contains_eq_true_iff.mpr (hiff.mp hmem)
        rw [hnt]
    rw [hcg, filter_not_take_contains hLnd]
    constructor
    · rw [List.length_drop]
      omega
    · intro a ha b hb
      have hsplit := List.take_append_drop
        ((olderOfProfile sh p snaps).length - mOpt.getD 1) (olderOfProfile sh p snaps)
      have hpw : ((olderOfProfile sh p snaps).take
            ((olderOfProfile sh p snaps).length - mOpt.getD 1)
          ++ (olderOfProfile sh p snaps).drop
            ((olderOfProfile sh p snaps).length - mOpt.getD 1)).Pairwise
          (fun a b => strLe a b = true) := by
        rw [hsplit]
        exact hLsort
      have hata : a ∈ (olderOfProfile sh p snaps).take
          ((olderOfProfile sh p snaps).length - mOpt.getD 1) := by
        have haf := List.mem_filter.mp ha
        have : a ∈ dels := contains_eq_true_iff.mp haf.2
        have := (key a haf.1).mp this
        rwa [hdg] at this
      exact (List.pairwise_append.mp hpw).2.2 a hata b hb
  · intro hcfg s hs
    have hdg : delsForGroup cfg p (olderOfProfile sh p snaps) =
        olderOfProfile sh p snaps := by
      rw [delsForGroup, hcfg]
    refine (key s hs).mpr ?_
    rw [hdg]
    exact hs

/-- Concrete instance of expire_item_retention: anchor a;daily;1;3, one
configured daily profile with max_on_live 1; of the two older daily
snapshots at most one survives. -/
theorem expire_item_retention_witness :
    ((olderOfProfile "a;daily;1;3" "daily" ["a;daily;1;1", "a;daily;1;2", "a;daily;1;3"]).filter
        (fun s => !((["a;daily;1;1"] : List String).contains s))).length ≤ 1 :=
  ((expire_item_retention [("daily", some 1)] ["a;daily;1;3"]
      ["a;daily;1;1", "a;daily;1;2", "a;daily;1;3"] ["a;daily;1;1"] "a;daily;1;3" "daily"
      (by decide) rfl (by decide) (by decide)).1 (some 1) rfl).1

/-- C3: backup-side expiration. With the driver returning snapshots in
sorted (hence temporal) order without duplicates: an image with no snapshot
at entry is deleted as orphaned; otherwise the element set aside is maximal
in timestamp; a non-final snapshot survives exactly when it is not expired;
the final snapshot is removed exactly when every other snapshot was expired
(so exactly one snapshot remained after the first pass) and
is_expired(last, treat_as_last=true) holds; the image is deleted exactly
when no snapshot is left. -/
theorem expire_backup_correct (now extra : Int) (snaps0 : List SnapB)
    (hsort : snaps0.Pairwise (fun a b => a.ts ≤ b.ts)) (hnd : snaps0.Nodup) :
    (snaps0 = [] → expire_backup now extra snaps0 = ([], true))
    ∧ (∀ last, snaps0.getLast? = some last →
        ((∀ s ∈ snaps0, s.ts ≤ last.ts)
        ∧ (∀ s ∈ snaps0.dropLast,
            (s ∈ (expire_backup now extra snaps0).1 ↔ is_expired now extra s false = false))
        ∧ (last ∉ (expire_backup now extra snaps0).1 ↔
            ((∀ s ∈ snaps0.dropLast, is_expired now extra s false = true)
             ∧ is_expired now extra last true = true))
        ∧ ((expire_backup now extra snaps0).2 = true ↔
            (expire_backup now extra snaps0).1 = []))) := by
  constructor
  · intro h; subst h; simp [expire_backup]
  · intro last hlast
    have hsplit : snaps0.dropLast ++ [last] = snaps0 :=
      List.dropLast_append_getLast? last hlast
    have hnd2 : (snaps0.dropLast ++ [last]).Nodup := by rw [hsplit]; exact hnd
    have hlastnm : last ∉ snaps0.dropLast := by
      rcases List.nodup_append.mp hnd2 with ⟨-, -, hdisj⟩
      intro hmem
      exact hdisj hmem (List.mem_singleton.mpr rfl)
    have hsort2 : (snaps0.dropLast ++ [last]).Pairwise (fun a b => a.ts ≤ b.ts) := by
      rw [hsplit]; exact hsort
    have hmax : ∀ s ∈ snaps0, s.ts ≤ last.ts := by
      intro s hs
      rw [← hsplit] at hs
      rcases List.mem_append.mp hs with h1 | h1
      · exact (List.pairwise_append.mp hsort2).2.2 s h1 last (List.mem_singleton.mpr rfl)
      · rw [List.mem_singleton.mp h1]
    by_cases hcond :
        (snaps0.dropLast.filter (fun s => !(is_expired now extra s false)) ++ [last]).length = 1
        ∧ is_expired now extra last true = true
    · have hfilnil :
          snaps0.dropLast.filter (fun s => !(is_expired now extra s false)) = [] := by
        have := hcond.1
        rw [List.length_append, List.length_singleton] at this
        exact List.length_eq_zero.mp (by omega)
      have hallexp : ∀ s ∈ snaps0.dropLast, is_expired now extra s false = true := by
        intro s hs
        have := List.filter_eq_nil_iff.mp hfilnil s hs
        simpa using this
      refine ⟨hmax, ?_, ?_, ?_⟩
      · intro s hs
        simp only [expire_backup, hlast, if_pos hcond]
        simp [hallexp s hs]
      · simp only [expire_backup, hlast, if_pos hcond]
        simp [hcond.2]
        exact hallexp
      · simp [expire_backup, hlast, if_pos hcond]
    · refine ⟨hmax, ?_, ?_, ?_⟩
      · intro s hs
        have hsne : s ≠ last := fun h => hlastnm (h ▸ hs)
        simp only [expire_backup, hlast, if_neg hcond]
        simp only [List.mem_append, List.mem_filter, List.mem_singleton]
        constructor
        · rintro (⟨-, hp⟩ | h1)
          · simpa using hp
          · exact absurd h1 hsne
        · intro h
          exact Or.inl ⟨hs, by simp [h]⟩
      · simp only [expire_backup, hlast, if_neg hcond]
        constructor
        · intro h
          exact absurd (List.mem_append.mpr (Or.inr (List.mem_singleton.mpr rfl))) h
        · rintro ⟨hall, hexp⟩
          exfalso
          apply hcond
          refine ⟨?_, hexp⟩
          have hfilnil :
              snaps0.dropLast.filter (fun s => !(is_expired now extra s false)) = [] := by
            rw [List.filter_eq_nil_iff]
            intro a ha
            simp [hall a ha]
          rw [hfilnil]
          rfl
      · simp only [expire_backup, hlast, if_neg hcond]
        simp [List.isEmpty_iff]

/-- Concrete instance of expire_backup_correct: with two daily snapshots and
a far-future now, the earlier snapshot does not survive the pass. -/
theorem expire_backup_correct_witness :
    (⟨"bck", "daily", 7, 0⟩ : SnapB) ∈
      (expire_backup 100000000 1 [⟨"bck", "daily", 7, 0⟩, ⟨"bck", "daily", 7, 86400⟩]).1 ↔
      is_expired 100000000 1 (⟨"bck", "daily", 7, 0⟩ : SnapB) false = false :=
  ((expire_backup_correct 100000000 1
      [⟨"bck", "daily", 7, 0⟩, ⟨"bck", "daily", 7, 86400⟩]
      (by decide) (by decide)).2
    ⟨"bck", "daily", 7, 86400⟩ (by decide)).2.1
    ⟨"bck", "daily", 7, 0⟩ (by decide)


theorem diskLoop_queued (steps : List PStep) :
    ∀ todo, (diskLoop steps todo).exc = false →
      (diskLoop steps todo).queued =
        (if (todo ++ jobsOf steps).isEmpty then [] else [todo ++ jobsOf steps]) := by
  induction steps with
  | nil =>
    intro todo h
    simp [diskLoop, jobsOf]
  | cons st rest ih =>
    intro todo h
    cases st with
    | skipped =>
      have := ih todo (by simpa [diskLoop] using h)
      simpa [diskLoop, jobsOf, List.filterMap_cons] using this
    | created j =>
      have := ih (todo ++ [j]) (by simpa [diskLoop] using h)
      simpa [diskLoop, jobsOf, List.filterMap_cons, List.append_assoc] using this
    | noSnap =>
      have := ih todo (by simpa [diskLoop] using h)
      simpa [diskLoop, jobsOf, List.filterMap_cons] using this
    | raises =>
      simp [diskLoop] at h

/-- C1: the claim states that the freeze window is exited (px.thaw runs) on
every failure path, in particular when creating a snapshot for one of the
unit's disks fails. Evaluated at a failing input: one frozen unit with a
single disk whose make_snap raises; the exception propagates past px.thaw
to the log-only handler and thaw is never called. -/
theorem create_snap_vm_thaw_skipped :
    (create_snap_vm
        { freezeOk := true,
          disks := [{ lockOk := true, steps := [PStep.raises] }] }).thawCalled
      = false := rfl

/-- C8 counterexample: a unit with two disks, each producing one job, emits
two one-job batches rather than a single per-unit batch. -/
theorem create_snap_vm_not_single_batch :
    ¬ ((create_snap_vm
        { freezeOk := true,
          disks := [{ lockOk := true, steps := [PStep.created ⟨"d1", none, "s1"⟩] },
                    { lockOk := true, steps := [PStep.created ⟨"d2", none, "s2"⟩] }] }).queued.length
        ≤ 1) := by decide

theorem vmDisks_queued (disks : List DiskRun)
    (hnoexc : ∀ d ∈ disks, (create_snap_disk d).exc = false) :
    (vmDisks disks).queued =
      (disks.map (fun d =>
        if d.lockOk then
          (if (jobsOf d.steps).isEmpty then [] else [jobsOf d.steps])
        else [])).flatten := by
  induction disks with
  | nil => simp [vmDisks]
  | cons d rest ih =>
    have hd : (create_snap_disk d).exc = false := hnoexc d (List.mem_cons_self d rest)
    have hq : (create_snap_disk d).queued =
        (if d.lockOk then
          (if (jobsOf d.steps).isEmpty then [] else [jobsOf d.steps])
        else []) := by
      by_cases hl : d.lockOk
      · rw [create_snap_disk, if_pos hl] at hd ⊢
        rw [if_pos hl]
        exact diskLoop_queued d.steps [] hd
      · rw [create_snap_disk, if_neg hl]
        rw [if_neg hl]
    have hrest := ih (fun x hx => hnoexc x (List.mem_cons_of_mem d hx))
    simp only [vmDisks, hd, Bool.false_eq_true, if_false]
    rw [hrest, List.map_cons, List.flatten_cons, hq]

/-- C8 amended: the jobs produced for one disk are emitted as one batch (a
single queue.put per disk, holding exactly that disk's jobs, and no put when
the disk produced none or its lock timed out); a unit's batches are the
per-disk batches in order, so a unit with several disks may span several
batches. -/
theorem create_snap_vm_batches (v : VMRun) (hf : v.freezeOk = true)
    (hnoexc : ∀ d ∈ v.disks, (create_snap_disk d).exc = false) :
    (create_snap_vm v).queued =
      (v.disks.map (fun d =>
        if d.lockOk then
          (if (jobsOf d.steps).isEmpty then [] else [jobsOf d.steps])
        else [])).flatten := by
  rw [create_snap_vm, if_pos hf]
  exact vmDisks_queued v.disks hnoexc

/-- Concrete instance of create_snap_vm_batches: one unit, one disk with a
skipped profile and one created job, yields exactly one one-job batch. -/
theorem create_snap_vm_batches_witness :
    (create_snap_vm
        { freezeOk := true,
          disks := [{ lockOk := true,
                      steps := [PStep.skipped, PStep.created ⟨"d", none, "s"⟩] }] }).queued
      = [[⟨"d", none, "s"⟩]] := by
  rw [create_snap_vm_batches
      { freezeOk := true,
        disks := [{ lockOk := true,
                    steps := [PStep.skipped, PStep.created ⟨"d", none, "s"⟩] }] }
      rfl (by decide)]
  rfl

/-- C9: the producer, after __work__ has processed every cluster, appends
exactly live_worker sentinels to the queue (batches contribute none); a
consumer takes messages up to its first sentinel and consumes exactly one
sentinel whenever its stream holds one, exiting there. -/
theorem producer_consumer_sentinels (batches : List (List Job)) (live_worker : Nat)
    (msgs : List (Option (List Job))) :
    ((producer_queue batches live_worker).count none = live_worker)
    ∧ ((consumer_consumed msgs).count none = if none ∈ msgs then 1 else 0) := by
  constructor
  · rw [producer_queue, List.count_append]
    have h1 : (batches.map some).count (none : Option (List Job)) = 0 := by
      rw [List.count_eq_zero]
      intro h
      rcases List.mem_map.mp h with ⟨b, -, hb⟩
      cases hb
    have h2 : (List.replicate live_worker (none : Option (List Job))).count none
        = live_worker := by
      simp [List.count_replicate]
    rw [h1, h2]
    omega
  · induction msgs with
    | nil => simp [consumer_consumed]
    | cons m rest ih =>
      cases m with
      | none => simp [consumer_consumed]
      | some b =>
        simp [consumer_consumed, List.count_cons, ih]

theorem updater_todo_shift (l : List StatusMsg) :
    ∀ t : Int, l.foldl
        (fun t m =>
          match m with
          | StatusMsg.add => t + 1
          | StatusMsg.done => t - 1)
        t
      = t + updater_todo l := by
  induction l with
  | nil => intro t; simp [updater_todo]
  | cons m rest ih =>
    intro t
    cases m <;>
      · rw [updater_todo, List.foldl_cons, List.foldl_cons, ih, ih]
        ring

theorem updater_todo_append (l1 l2 : List StatusMsg) :
    updater_todo (l1 ++ l2) = updater_todo l1 + updater_todo l2 := by
  rw [updater_todo, List.foldl_append, ← updater_todo, updater_todo_shift]

theorem diskLoop_status_todo (steps : List PStep) :
    ∀ todo, (diskLoop steps todo).exc = false →
      ((jobsOf steps).length : Int) ≤ updater_todo (diskLoop steps todo).status := by
  induction steps with
  | nil =>
    intro todo h
    simp [diskLoop, jobsOf, updater_todo]
  | cons st rest ih =>
    intro todo h
    cases st with
    | skipped =>
      have hih := ih todo (by simpa [diskLoop] using h)
      have : updater_todo (diskLoop (PStep.skipped :: rest) todo).status
          = updater_todo (diskLoop rest todo).status := by
        rw [diskLoop]
        rw [show (StatusMsg.add :: StatusMsg.done :: (diskLoop rest todo).status)
            = [StatusMsg.add, StatusMsg.done] ++ (diskLoop rest todo).status from rfl]
        rw [updater_todo_append]
        simp [updater_todo]
      rw [this]
      simpa [jobsOf, List.filterMap_cons] using hih
    | created j =>
      have hih := ih (todo ++ [j]) (by simpa [diskLoop] using h)
      have : updater_todo (diskLoop (PStep.created j :: rest) todo).status
          = 1 + updater_todo (diskLoop rest (todo ++ [j])).status := by
        rw [diskLoop]
        rw [show (StatusMsg.add :: (diskLoop rest (todo ++ [j])).status)
            = [StatusMsg.add] ++ (diskLoop rest (todo ++ [j])).status from rfl]
        rw [updater_todo_append]
        simp [updater_todo]
      rw [this]
      have hlen : (jobsOf (PStep.created j :: rest)).length = (jobsOf rest).length + 1 := by
        simp [jobsOf, List.filterMap_cons]
      rw [hlen]
      push_cast
      omega
    | noSnap =>
      have hih := ih todo (by simpa [diskLoop] using h)
      have : updater_todo (diskLoop (PStep.noSnap :: rest) todo).status
          = 1 + updater_todo (diskLoop rest todo).status := by
        rw [diskLoop]
        rw [show (StatusMsg.add :: (diskLoop rest todo).status)
            = [StatusMsg.add] ++ (diskLoop rest todo).status from rfl]
        rw [updater_todo_append]
        simp [updater_todo]
      rw [this]
      have hlen : (jobsOf (PStep.noSnap :: rest)).length = (jobsOf rest).length := by
        simp [jobsOf, List.filterMap_cons]
      rw [hlen]
      omega
    | raises =>
      simp [diskLoop] at h

/-- C10: status accounting is unbalanced for multi-job batches. The producer
emits one add_item per profile considered and done_item only for skipped
profiles, while the consumer emits exactly one done_item for the whole
dequeued batch; hence a disk whose batch carries k >= 2 jobs leaves at least
k - 1 items pending forever in the reporter's count. -/
theorem status_unbalanced (d : DiskRun) (k : Nat) (hl : d.lockOk = true)
    (hexc : (create_snap_disk d).exc = false)
    (hk : (jobsOf d.steps).length = k) (h2 : 2 ≤ k) :
    (consumer_status [some (jobsOf d.steps)] = [StatusMsg.done])
    ∧ (k : Int) - 1 ≤
        updater_todo ((create_snap_disk d).status
          ++ consumer_status [some (jobsOf d.steps)]) := by
  constructor
  · rfl
  · rw [updater_todo_append]
    have hcs : updater_todo (consumer_status [some (jobsOf d.steps)]) = -1 := by
      simp [consumer_status, updater_todo]
    rw [hcs]
    rw [create_snap_disk, if_pos hl] at hexc ⊢
    have := diskLoop_status_todo d.steps [] hexc
    rw [hk] at this
    omega

/-- Concrete instance of status_unbalanced: a disk whose batch carries two
created jobs leaves at least one permanently pending item. -/
theorem status_unbalanced_witness :
    (consumer_status [some (jobsOf [PStep.created ⟨"d", none, "s1"⟩,
        PStep.created ⟨"d", none, "s2"⟩])] = [StatusMsg.done])
    ∧ ((2 : Nat) : Int) - 1 ≤
        updater_todo ((create_snap_disk
            { lockOk := true,
              steps := [PStep.created ⟨"d", none, "s1"⟩,
                        PStep.created ⟨"d", none, "s2"⟩] }).status
          ++ consumer_status [some (jobsOf [PStep.created ⟨"d", none, "s1"⟩,
              PStep.created ⟨"d", none, "s2"⟩])]) :=
  status_unbalanced
    { lockOk := true,
      steps := [PStep.created ⟨"d", none, "s1"⟩, PStep.created ⟨"d", none, "s2"⟩] }
    2 rfl rfl rfl (by omega)



theorem delPass_filter (fresh : List CheckRec) (l : List ResRow) :
    ∀ st : List ResRow,
      l.foldl
        (fun st i =>
          if fresh.any (fun j => rowMatches i j) then st
          else delKey st i.cluster i.disk)
        st
      = st.filter (fun r =>
          !(l.any (fun i =>
            (!(fresh.any (fun j => rowMatches i j)))
            && (r.cluster == i.cluster && r.disk == i.disk)))) := by
  induction l with
  | nil =>
    intro st
    simp
  | cons i l ih =>
    intro st
    by_cases hP : fresh.any (fun j => rowMatches i j) = true
    · rw [List.foldl_cons, if_pos hP, ih st]
      apply List.filter_congr
      intro r hr
      simp [List.any_cons, hP]
    · have hP2 : fresh.any (fun j => rowMatches i j) = false := by
        cases h : fresh.any (fun j => rowMatches i j)
        · rfl
        · exact absurd h hP
      rw [List.foldl_cons, if_neg hP, ih (delKey st i.cluster i.disk), delKey,
        List.filter_filter]
      apply List.filter_congr
      intro r hr
      cases h1 : (r.cluster == i.cluster && r.disk == i.disk) <;>
        cases h2 : l.any (fun i =>
            (!(fresh.any (fun j => rowMatches i j)))
            && (r.cluster == i.cluster && r.disk == i.disk)) <;>
        simp [List.any_cons, hP2, h1, h2]

theorem delPass_store (fresh : List CheckRec) (store : List ResRow) :
    store.foldl
      (fun st i =>
        if fresh.any (fun j => rowMatches i j) then st
        else delKey st i.cluster i.disk)
      store
    = store.filter (fun r => fresh.any (fun j => rowMatches r j)) := by
  rw [delPass_filter]
  apply List.filter_congr
  intro r hr
  cases hPr : fresh.any (fun j => rowMatches r j)
  · have hw : store.any (fun i =>
        (!(fresh.any (fun j => rowMatches i j)))
        && (r.cluster == i.cluster && r.disk == i.disk)) = true := by
      rw [List.any_eq_true]
      exact ⟨r, hr, by simp [hPr]⟩
    simp [hw]
  · have hw : store.any (fun i =>
        (!(fresh.any (fun j => rowMatches i j)))
        && (r.cluster == i.cluster && r.disk == i.disk)) = false := by
      rw [List.any_eq_false]
      intro i hi
      cases hsk : (r.cluster == i.cluster && r.disk == i.disk)
      · simp [hsk]
      · have h1 : r.cluster = i.cluster :=
          eq_of_beq ((Bool.and_eq_true _ _).mp hsk).1
        have h2 : r.disk = i.disk :=
          eq_of_beq ((Bool.and_eq_true _ _).mp hsk).2
        have hfun : (fun j => rowMatches i j) = (fun j => rowMatches r j) := by
          funext j
          simp only [rowMatches]
          rw [← h1, ← h2]
        rw [hfun, hPr]
        simp
    simp [hw]

theorem insPass_append (now : Int) (failed_db : List ResRow) (fresh : List CheckRec) :
    ∀ st : List ResRow,
      fresh.foldl
        (fun st c =>
          if failed_db.any (fun j => rowMatches j c) then st
          else st ++ [{ date := now, cluster := c.cluster, disk := c.image, msg := c.msg }])
        st
      = st ++ (fresh.filter (fun c => !(failed_db.any (fun j => rowMatches j c)))).map
          (fun c => { date := now, cluster := c.cluster, disk := c.image, msg := c.msg }) := by
  induction fresh with
  | nil => intro st; simp
  | cons c rest ih =>
    intro st
    by_cases hQ : failed_db.any (fun j => rowMatches j c) = true
    · rw [List.foldl_cons, if_pos hQ, ih st, List.filter_cons]
      simp [hQ]
    · have hQ2 : failed_db.any (fun j => rowMatches j c) = false := by
        cases h : failed_db.any (fun j => rowMatches j c)
        · rfl
        · exact absurd h hQ
      rw [List.foldl_cons, if_neg hQ, ih, List.filter_cons]
      simp [hQ2]

/-- C7: results-store reconciliation. A reconciled store is exactly the old
rows whose (cluster, disk) key appears in the fresh run (kept verbatim, so
first_seen_epoch is preserved), followed by the fresh failures whose key was
absent from the store, stamped with the current epoch; re-running the
reconciliation with the same fresh set leaves the store unchanged. -/
theorem update_check_results_correct (now now2 : Int) (store : List ResRow)
    (fresh : List CheckRec) :
    (update_check_results now store fresh =
      store.filter (fun r => fresh.any (fun j => rowMatches r j))
      ++ (fresh.filter (fun c => !(store.any (fun j => rowMatches j c)))).map
          (fun c => { date := now, cluster := c.cluster, disk := c.image, msg := c.msg }))
    ∧ (update_check_results now2 (update_check_results now store fresh) fresh
        = update_check_results now store fresh) := by
  have hch : ∀ (n : Int) (st : List ResRow),
      update_check_results n st fresh =
        st.filter (fun r => fresh.any (fun j => rowMatches r j))
        ++ (fresh.filter (fun c => !(st.any (fun j => rowMatches j c)))).map
            (fun c => { date := n, cluster := c.cluster, disk := c.image, msg := c.msg }) := by
    intro n st
    rw [update_check_results, delPass_store fresh st, insPass_append n st fresh]
  refine ⟨hch now store, ?_⟩
  rw [hch now store]
  rw [hch now2]
  have hA : (store.filter (fun r => fresh.any (fun j => rowMatches r j))).filter
      (fun r => fresh.any (fun j => rowMatches r j))
      = store.filter (fun r => fresh.any (fun j => rowMatches r j)) := by
    rw [List.filter_filter]
    apply List.filter_congr
    intro r hr
    cases h : fresh.any (fun j => rowMatches r j) <;> simp [h]
  have hB : ((fresh.filter (fun c => !(store.any (fun j => rowMatches j c)))).map
        (fun c =>
          ({ date := now, cluster := c.cluster, disk := c.image, msg := c.msg } : ResRow))).filter
      (fun r => fresh.any (fun j => rowMatches r j))
      = (fresh.filter (fun c => !(store.any (fun j => rowMatches j c)))).map
          (fun c => { date := now, cluster := c.cluster, disk := c.image, msg := c.msg }) := by
    rw [List.filter_eq_self]
    intro r hrm
    rcases List.mem_map.mp hrm with ⟨c, hc, rfl⟩
    rw [List.any_eq_true]
    refine ⟨c, List.mem_of_mem_filter hc, ?_⟩
    simp [rowMatches]
  have hQS : fresh.filter (fun c =>
      !((store.filter (fun r => fresh.any (fun j => rowMatches r j))
        ++ (fresh.filter (fun c => !(store.any (fun j => rowMatches j c)))).map
            (fun c =>
              ({ date := now, cluster := c.cluster, disk := c.image, msg := c.msg } : ResRow))).any
        (fun j => rowMatches j c)))
      = [] := by
    rw [List.filter_eq_nil_iff]
    intro c hc
    have hany : (store.filter (fun r => fresh.any (fun j => rowMatches r j))
        ++ (fresh.filter (fun c => !(store.any (fun j => rowMatches j c)))).map
            (fun c =>
              ({ date := now, cluster := c.cluster, disk := c.image, msg := c.msg } : ResRow))).any
        (fun j => rowMatches j c) = true := by
      rw [List.any_eq_true]
      cases hq : store.any (fun j => rowMatches j c)
      · refine ⟨{ date := now, cluster := c.cluster, disk := c.image, msg := c.msg }, ?_, ?_⟩
        · refine List.mem_append.mpr (Or.inr ?_)
          refine List.mem_map.mpr ⟨c, ?_, rfl⟩
          rw [List.mem_filter]
          exact ⟨hc, by simp [hq]⟩
        · simp [rowMatches]
      · rcases List.any_eq_true.mp hq with ⟨j, hj, hjm⟩
        refine ⟨j, ?_, hjm⟩
        refine List.mem_append.mpr (Or.inl ?_)
        rw [List.mem_filter]
        refine ⟨hj, ?_⟩
        rw [List.any_eq_true]
        exact ⟨c, hc, hjm⟩
    simp [hany]
  rw [List.filter_append, hA, hB, hQS]
  simp

end Backurne
